import Mathlib

/-!
Gob renderer: geometry and paint of styled DOM elements

A shallow embedding of `renderer/htmlelement.go`.

Modelling conventions.

* A `*RenderableDomElement` tree is an immutable rose tree: the chain
  `FirstChild`, `NextSibling`, ... of a node is the list `Children`.  The `Parent`
  pointers are passed as an explicit context `anc`: the style handles of the
  ancestors of the node, nearest first (`anc = []` is `Parent == nil`).
* `Styles` is a pointer to a mutable `css.StyledElement`.  A handle is `none`
  (the nil pointer) or `some a` (an address); a `Store` gives, for every handle,
  the answers of the css accessors.  `SetFontSize` is a store update, so the
  in-place mutation done by `Render` on headings is explicit state passing.
* The css package, the dom package and the font library are not part of the
  renderer source: their answers are parameters (`StyledElement`, `Face`).
* A Go panic is the result `none`.
* Go `int` has 64 bits.  The running sum of child heights in `GetHeightInPx` wraps
  around (`wrapInt`), and `image.NewRGBA` checks the size of its buffer for overflow
  (`mul3NonNeg`); the text measure and the pen positions are kept in `Int`.
  `fixed.Int26_6` is an `int32` and the conversion to it is modelled by `Int26_6`.
  `x >> 6` is `x >>> (6 : Nat)` (floor), `x / k` is `Int.tdiv` (truncation).
* Pixel contents are not modelled: an image is its bounds and background fill.
-/

namespace Renderer

/-- The constant `DefaultFontSize`. -/
def DefaultFontSize : Int := 16

/-- The node kinds of `html.NodeType`. -/
inductive NodeType where
  | ErrorNode
  | TextNode
  | DocumentNode
  | ElementNode
  | CommentNode
  | DoctypeNode
  deriving DecidableEq, Repr

/-- The non-nil `error` values a css accessor can hand back: the two sentinels
`css.NoStyles` and `css.InheritValue`, and any other error. -/
inductive CssError where
  | NoStyles
  | InheritValue
  | Other
  deriving DecidableEq, Repr

/-- What the code uses of a `font.Face`: `Metrics().Height`, `Metrics().Ascent`
and `font.MeasureString(face, s)`, all in 26.6 fixed point. -/
structure Face where
  Height : Int
  Ascent : Int
  MeasureString : String → Int

/-- A `color.RGBA` value. -/
structure RGBA where
  R : Nat
  G : Nat
  B : Nat
  A : Nat
  deriving DecidableEq, Repr

/-- The answers of the accessors of one `css.StyledElement`:
`GetFontSize()`, `FollowCascadeToPx("height", -1)`, `DisplayProp()`,
`GetFontFace(size)` and `GetBackgroundColor(deflt)` (a nil colour is `none`). -/
structure StyledElement where
  GetFontSize : Int × Option CssError
  FollowCascadeToPxHeight : Int
  DisplayProp : String
  GetFontFace : Int → Face
  GetBackgroundColor : Option RGBA × Option CssError

/-- A style handle `*css.StyledElement`: `none` is the nil pointer. -/
abbrev StylePtr := Option Nat

/-- The state of all style handles (what the css accessors answer on each). -/
abbrev Store := StylePtr → StyledElement

/-- A `RenderableDomElement`: node kind and `Data` of the embedded `dom.Element`,
the `Styles` handle, and the sibling chain starting at `FirstChild`. -/
inductive RenderableDomElement where
  | mk (Typ : NodeType) (Data : String) (Styles : StylePtr)
      (Children : List RenderableDomElement)

namespace RenderableDomElement

/-- Field `Type` of the embedded node. -/
def Typ : RenderableDomElement → NodeType
  | mk t _ _ _ => t

/-- Field `Data` of the embedded node. -/
def Data : RenderableDomElement → String
  | mk _ d _ _ => d

/-- Field `Styles`. -/
def Styles : RenderableDomElement → StylePtr
  | mk _ _ s _ => s

/-- The chain `FirstChild`, `FirstChild.NextSibling`, ... -/
def Children : RenderableDomElement → List RenderableDomElement
  | mk _ _ _ cs => cs

end RenderableDomElement

/-! ## Text metrics -/

/-- Go's `unicode.IsSpace`. -/
def IsSpace (r : Char) : Bool :=
  let n := r.toNat
  if n ≤ 0xFF then
    decide (n = 0x09 ∨ n = 0x0A ∨ n = 0x0B ∨ n = 0x0C ∨ n = 0x0D ∨ n = 0x20 ∨ n = 0x85 ∨ n = 0xA0)
  else
    decide (n = 0x1680 ∨ (0x2000 ≤ n ∧ n ≤ 0x200A) ∨ n = 0x2028 ∨ n = 0x2029 ∨ n = 0x202F
      ∨ n = 0x205F ∨ n = 0x3000)

/-- The loop of Go's `strings.Fields`: `cur` is the word being read. -/
def fieldsFrom : List Char → List Char → List String
  | cur, [] => if cur.isEmpty then [] else [String.mk cur]
  | cur, c :: cs =>
    if IsSpace c then
      (if cur.isEmpty then fieldsFrom [] cs else String.mk cur :: fieldsFrom [] cs)
    else fieldsFrom (cur ++ [c]) cs

/-- Go's `strings.Fields`: the maximal runs of non-space characters. -/
def Fields (s : String) : List String := fieldsFrom [] s.data

/-- The rune of `utf8.DecodeRuneInString`: the first character, or `RuneError`
(U+FFFD) for the empty string. -/
def DecodeRuneInString (s : String) : Char :=
  match s.data with
  | [] => Char.ofNat 0xFFFD
  | c :: _ => c

/-- The byte `word[len(word)-1]`: the last byte of the UTF-8 encoding of the last
character (the character itself below 0x80, else its continuation byte).  The
words of `Fields` are never empty (`fieldsFrom_ne_empty`), so the index is in range;
the value `0` for the empty word is never used. -/
def lastByte (word : String) : Nat :=
  match word.data.getLast? with
  | none => 0
  | some c => if c.toNat < 0x80 then c.toNat else 0x80 + c.toNat % 0x40

/-- The right-hand side of the spacing `switch` (the same text in `stringSize` and in
`Render`): `(int(fntDrawer.Dot.X) >> 6)` plus half of `fSize` after `, ; : ! ?`,
all of it after `.`, a third otherwise. -/
def punctuationSpace (fSize DotX : Int) (word : String) : Int :=
  let b := lastByte word
  if b = 44 ∨ b = 59 ∨ b = 58 ∨ b = 33 ∨ b = 63 then (DotX >>> (6 : Nat)) + fSize.tdiv 2
  else if b = 46 then (DotX >>> (6 : Nat)) + fSize
  else (DotX >>> (6 : Nat)) + fSize.tdiv 3

/-- The function `stringSize(fntDrawer, textContent)`; of the drawer only `Face` and
`Dot.X` are read.  The returned error is always nil. -/
def stringSize (face : Face) (DotX : Int) (textContent : String) : Int × Option CssError :=
  let words := Fields textContent
  let fSize := face.Height >>> (6 : Nat)
  let size0 : Int := if IsSpace (DecodeRuneInString textContent) then fSize.tdiv 3 else 0
  (words.foldl
    (fun size word => size + (face.MeasureString word >>> (6 : Nat)) + punctuationSpace fSize DotX word)
    size0, none)

/-! ## Geometry -/

/-- Method `GetFontSize`, for the node with style handle `s` and ancestors `anc`.
`fromParent` is what the case `css.NoStyles, css.InheritValue` returns:
`DefaultFontSize` on a nil `Parent`, else `e.Parent.GetFontSize()`. -/
def GetFontSize (σ : Store) : StylePtr → List StylePtr → Option Int
  | s, anc =>
    let fromParent : Option Int :=
      match anc with
      | [] => some DefaultFontSize
      | p :: ps => GetFontSize σ p ps
    match (σ s).GetFontSize with
    | (_, some CssError.NoStyles) | (_, some CssError.InheritValue) => fromParent
    | (fromCSS, none) => some fromCSS
    | (_, some CssError.Other) => none

/-- Method `GetDisplayProp`. -/
def GetDisplayProp (σ : Store) (e : RenderableDomElement) : String :=
  if e.Typ = NodeType.TextNode then "inline"
  else if (σ e.Styles).DisplayProp ≠ "" then (σ e.Styles).DisplayProp
  else "block"

/-- The value a Go `int` takes after an addition: the sum wrapped around to the range
from `-2^63` to `2^63 - 1`. -/
def wrapInt (v : Int) : Int :=
  (v + 9223372036854775808) % 18446744073709551616 - 9223372036854775808

mutual
/-- Method `GetHeightInPx`. -/
def GetHeightInPx (σ : Store) (anc : List StylePtr) :
    RenderableDomElement → Int → Option (Int × Option CssError)
  | .mk _ _ st kids, containerWidth =>
    let explicitHeight := (σ st).FollowCascadeToPxHeight
    if explicitHeight ≠ -1 then some (explicitHeight, none)
    else
      match heightLoop σ (st :: anc) kids containerWidth 0 with
      | none => none
      | some calcHeight =>
        if calcHeight > 0 then some (calcHeight, none)
        else if st = none then some (-1, some CssError.NoStyles)
        else
          match GetFontSize σ st anc with
          | none => none
          | some f => some (f, some CssError.NoStyles)
/-- The `for c := e.FirstChild; ...` loop of `GetHeightInPx`, from `calcHeight`; the
additions `calcHeight += ...` are those of a Go `int`. -/
def heightLoop (σ : Store) (anc : List StylePtr) :
    List RenderableDomElement → Int → Int → Option Int
  | [], _, calcHeight => some calcHeight
  | c :: cs, containerWidth, calcHeight =>
    match GetHeightInPx σ anc c containerWidth with
    | none => none
    | some (cH, _) =>
      match GetFontSize σ c.Styles anc with
      | none => none
      | some f =>
        if cH < f then heightLoop σ anc cs containerWidth (wrapInt (calcHeight + f))
        else heightLoop σ anc cs containerWidth (wrapInt (calcHeight + cH))
end

mutual
/-- Method `GetWidthInPx`.  The drawer built for a text node has the zero `Dot`. -/
def GetWidthInPx (σ : Store) (anc : List StylePtr) :
    RenderableDomElement → Int → Option (Int × Option CssError)
  | .mk ty data st kids, containerWidth =>
    if GetDisplayProp σ (.mk ty data st kids) = "block" then some (containerWidth, none)
    else if ty = NodeType.TextNode then
      match GetFontSize σ st anc with
      | none => none
      | some fSize => some (stringSize ((σ st).GetFontFace fSize) 0 data)
    else
      match widthLoop σ (st :: anc) kids containerWidth 0 with
      | none => none
      | some calcWidth =>
        if calcWidth > 0 then some (calcWidth, none) else some (containerWidth, none)
/-- The `for child := e.FirstChild; ...` loop of `GetWidthInPx`, from `calcWidth`. -/
def widthLoop (σ : Store) (anc : List StylePtr) :
    List RenderableDomElement → Int → Int → Option Int
  | [], _, calcWidth => some calcWidth
  | child :: cs, containerWidth, calcWidth =>
    match GetWidthInPx σ anc child containerWidth with
    | none => none
    | some (cW, _) =>
      if calcWidth < cW then widthLoop σ anc cs containerWidth cW
      else widthLoop σ anc cs containerWidth calcWidth
end

/-! ## Tree walker -/

mutual
/-- Method `Walk`, as the list of the nodes handed to `callback`, in the order of the
calls.  A receiver in the tree is never nil, so the `e == nil` return is not taken. -/
def Walk : RenderableDomElement → List RenderableDomElement
  | .mk ty data st kids =>
    (if ty = NodeType.ElementNode then [.mk ty data st kids] else []) ++ walkLoop kids
/-- The loop `for c := e.FirstChild; c != nil; c = c.NextSibling` of `Walk`: for an
element child, `callback(c)` and then `c.Walk(callback)`. -/
def walkLoop : List RenderableDomElement → List RenderableDomElement
  | [] => []
  | c :: cs =>
    match c.Typ with
    | NodeType.ElementNode => (c :: Walk c) ++ walkLoop cs
    | _ => walkLoop cs
end

/-! ## Paint -/

/-- An `image.Point`; also used for a `fixed.Point26_6`. -/
structure Point where
  X : Int
  Y : Int
  deriving DecidableEq, Repr

/-- An `image.Rectangle`. -/
structure Rectangle where
  Min : Point
  Max : Point
  deriving DecidableEq, Repr

/-- `Rectangle.Dx`. -/
def Rectangle.Dx (r : Rectangle) : Int := r.Max.X - r.Min.X

/-- `Rectangle.Dy`. -/
def Rectangle.Dy (r : Rectangle) : Int := r.Max.Y - r.Min.Y

/-- An `*image.RGBA`, reduced to its bounds and the colour its background was filled
with (`none`: not filled). -/
structure Image where
  Rect : Rectangle
  Fill : Option RGBA
  deriving DecidableEq, Repr

/-- Go's `mul3NonNeg` of the image package: the product `x * y * z`, or `-1` when an
argument is negative or the computation overflows the `int` type (the two 64 bit
multiplications, then the conversion to `int`). -/
def mul3NonNeg (x y z : Int) : Int :=
  if x < 0 ∨ y < 0 ∨ z < 0 then -1
  else if 18446744073709551616 ≤ x * y then -1
  else if 18446744073709551616 ≤ x * y * z then -1
  else if 9223372036854775808 ≤ x * y * z then -1
  else x * y * z

/-- The largest allocation the Go runtime accepts on a 64 bit platform, `2^48` bytes:
beyond it `make` panics. -/
def maxAlloc : Int := 281474976710656

/-- Go's `image.NewRGBA`: it panics when the rectangle has a negative width or height or
when the length of its pixel buffer, `4 * Dx * Dy`, overflows (`pixelBufferLength`), and
so does the `make` of the buffer when that length is above `maxAlloc`.  That the machine
has the memory for a buffer within these bounds is taken for granted. -/
def NewRGBA (r : Rectangle) : Option Image :=
  if mul3NonNeg 4 r.Dx r.Dy < 0 then none
  else if maxAlloc < mul3NonNeg 4 r.Dx r.Dy then none
  else some ⟨r, none⟩

/-- Conversion of an `int` to the `int32` type `fixed.Int26_6`. -/
def Int26_6 (v : Int) : Int := (v + 2147483648) % 4294967296 - 2147483648

/-- Go's `fixed.P(x, y)`: the point `(x << 6, y << 6)`. -/
def fixedP (x y : Int) : Point := ⟨Int26_6 (x * 64), Int26_6 (y * 64)⟩

/-- The two cursors of `Render`: `dot` (pixels) and `fntDrawer.Dot` (26.6). -/
structure Pen where
  dot : Point
  Dot : Point
  deriving DecidableEq, Repr

/-- Modelled from the spec: `dom.Element.GetTextContent` belongs to the dom package,
whose source is not available; for a text node it is the literal text content of the
node, its `Data`. -/
def GetTextContent (c : RenderableDomElement) : String := c.Data

/-- Modelled from the spec: `css.StyledElement.SetFontSize` belongs to the css package,
whose source is not available; it overrides the font size in place, so that
`GetFontSize()` on the handle then yields `(px, nil)`. -/
def SetFontSize (σ : Store) (s : StylePtr) (px : Int) : Store :=
  Function.update σ s { σ s with GetFontSize := (px, none) }

/-- Method `GetBackgroundColor`; a nil colour is `some none`.  `fromParent` is what
the case `css.InheritValue` returns, `e.Parent.GetBackgroundColor()`: a panic (`none`)
on a nil `Parent`. -/
def GetBackgroundColor (σ : Store) : StylePtr → List StylePtr → Option (Option RGBA)
  | s, anc =>
    let fromParent : Option (Option RGBA) :=
      match anc with
      | [] => none
      | p :: ps => GetBackgroundColor σ p ps
    match (σ s).GetBackgroundColor with
    | (_, some CssError.InheritValue) => fromParent
    | (_, some CssError.NoStyles) => some (some ⟨0x00, 0xE0, 0xE0, 0x00⟩)
    | (bg, _) => some bg

/-- The heading branch at the top of `Render`: on an `h1` element the font size of its
handle and of the handle of every direct child is set to `DefaultFontSize * 2`. -/
def headingOverride (σ : Store) (e : RenderableDomElement) : Store :=
  if e.Typ = NodeType.ElementNode ∧ e.Data = "h1" then
    e.Children.foldl (fun τ c => SetFontSize τ c.Styles (DefaultFontSize * 2))
      (SetFontSize σ e.Styles (DefaultFontSize * 2))
  else σ

/-- The line-break test before a word is drawn:
`if dot.X+wordSizeInPx > width { dot.X = 0; dot.Y += fSize; fntDrawer.Dot = ... }`. -/
def lineBreak (fontFace : Face) (fSize width wordSizeInPx : Int) (pen : Pen) : Pen :=
  if pen.dot.X + wordSizeInPx > width then
    { dot := ⟨0, pen.dot.Y + fSize⟩,
      Dot := fixedP 0 (pen.dot.Y + fSize + (fontFace.Ascent >>> (6 : Nat))) }
  else pen

/-- Go's `font.Drawer.DrawString`, on the cursor only: `Dot.X` advances by the glyph
advances and kerning of the word, the sum that `MeasureString` returns. -/
def DrawString (fontFace : Face) (pen : Pen) (word : String) : Pen :=
  { pen with Dot := ⟨Int26_6 (pen.Dot.X + fontFace.MeasureString word), pen.Dot.Y⟩ }

/-- The body of `for _, word := range words` in `Render`. -/
def paintWord (fontFace : Face) (fSize width : Int) (pen : Pen) (word : String) : Pen :=
  let wordSizeInPx := fontFace.MeasureString word >>> (6 : Nat)
  let pen1 := lineBreak fontFace fSize width wordSizeInPx pen
  let pen2 := DrawString fontFace pen1 word
  let x := punctuationSpace fSize pen2.Dot.X word
  { dot := ⟨x, pen2.dot.Y⟩, Dot := fixedP x (pen2.dot.Y + (fontFace.Ascent >>> (6 : Nat))) }

/-- The `case html.TextNode` of the child loop of `Render`. -/
def paintText (fontFace : Face) (fSize width : Int) (textContent : String) (pen : Pen) : Pen :=
  let words := Fields textContent
  let pen1 : Pen :=
    if IsSpace (DecodeRuneInString textContent) then
      { dot := ⟨pen.dot.X + fSize.tdiv 3, pen.dot.Y⟩,
        Dot := fixedP (pen.dot.X + fSize.tdiv 3) (pen.dot.Y + (fontFace.Ascent >>> (6 : Nat))) }
    else pen
  words.foldl (paintWord fontFace fSize width) pen1

/-- The end of `case html.ElementNode`: how the cursors move past a child that
measured `childWidth` by `childHeight`; `display` is `c.GetDisplayProp()`. -/
def advancePastChild (fontFace : Face) (display : String) (childWidth childHeight : Int)
    (pen : Pen) : Pen :=
  let dot : Point :=
    if display ≠ "inline" then ⟨0, pen.dot.Y + childHeight⟩
    else ⟨pen.dot.X + childWidth, pen.dot.Y⟩
  { dot := dot, Dot := fixedP dot.X (dot.Y + (fontFace.Ascent >>> (6 : Nat))) }

/-- What a call of `Render` leaves behind: the image `dst` it returns, the final
position of its cursor `dot`, and the style handles after the in-place overrides. -/
structure Rendered where
  dst : Image
  dot : Point
  styles : Store

mutual
/-- Method `Render`. -/
def Render (σ : Store) (anc : List StylePtr) :
    RenderableDomElement → Int → Option Rendered
  | .mk ty data st kids, containerWidth =>
    match GetFontSize σ st anc with
    | none => none
    | some fSize =>
      let fontFace := (σ st).GetFontFace fSize
      let pen0 : Pen := ⟨⟨0, 0⟩, fixedP 0 (fontFace.Ascent >>> (6 : Nat))⟩
      let σ1 := headingOverride σ (.mk ty data st kids)
      match GetHeightInPx σ1 anc (.mk ty data st kids) containerWidth with
      | none => none
      | some (height0, _) =>
        let height := if height0 < 0 then 0 else height0
        match GetWidthInPx σ1 anc (.mk ty data st kids) containerWidth with
        | none => none
        | some (width, _) =>
          match GetBackgroundColor σ1 st anc with
          | none => none
          | some bg =>
            match NewRGBA ⟨⟨0, 0⟩, ⟨width, height⟩⟩ with
            | none => none
            | some dst =>
              match paintChildren σ1 (st :: anc) fontFace fSize width containerWidth kids pen0 with
              | none => none
              | some (pen, σ2) => some ⟨{ dst with Fill := bg }, pen.dot, σ2⟩
/-- The child loop `for c := e.FirstChild; c != nil; c = c.NextSibling` of `Render`;
`anc` is the context of the children (the handle of `e` first). -/
def paintChildren (σ : Store) (anc : List StylePtr) (fontFace : Face)
    (fSize width containerWidth : Int) :
    List RenderableDomElement → Pen → Option (Pen × Store)
  | [], pen => some (pen, σ)
  | c :: cs, pen =>
    match c.Typ with
    | NodeType.TextNode =>
      paintChildren σ anc fontFace fSize width containerWidth cs
        (paintText fontFace fSize width (GetTextContent c) pen)
    | NodeType.ElementNode =>
      match GetHeightInPx σ anc c width with
      | none => none
      | some (childHeight, _) =>
        match GetWidthInPx σ anc c containerWidth with
        | none => none
        | some (childWidth, _) =>
          match NewRGBA ⟨⟨0, 0⟩, ⟨childWidth, childHeight⟩⟩ with
          | none => none
          | some _ =>
            match Render σ anc c width with
            | none => none
            | some childImage =>
              paintChildren childImage.styles anc fontFace fSize width containerWidth cs
                (advancePastChild fontFace (GetDisplayProp childImage.styles c)
                  childWidth childHeight pen)
    | _ => paintChildren σ anc fontFace fSize width containerWidth cs pen
end

/-! ## Specification-side definitions -/

/-- The resolved font size nearest to the start of a path of style handles (the node
first, then its ancestors up to the root): the value of the first handle whose
font-size lookup comes back without an error. -/
def nearestResolved (σ : Store) : List StylePtr → Option Int
  | [] => none
  | s :: rest =>
    if (σ s).GetFontSize.2 = none then some (σ s).GetFontSize.1 else nearestResolved σ rest

/-- The gap after a word as the specification words it, by the last character of the
word: `L / 2` after one of `, ; : ! ?` (codes 44, 59, 58, 33, 63), `L` after `.`
(code 46), `L / 3` otherwise. -/
def specGap (L : Int) (word : String) : Int :=
  match word.data.getLast? with
  | none => L.tdiv 3
  | some c =>
    if c = Char.ofNat 44 ∨ c = Char.ofNat 59 ∨ c = Char.ofNat 58 ∨ c = Char.ofNat 33
        ∨ c = Char.ofNat 63 then L.tdiv 2
    else if c = Char.ofNat 46 then L
    else L.tdiv 3

/-- The code points with the Unicode property `White_Space`. -/
def whiteSpaceCodes : List Nat :=
  [0x09, 0x0A, 0x0B, 0x0C, 0x0D, 0x20, 0x85, 0xA0, 0x1680, 0x2000, 0x2001, 0x2002, 0x2003,
   0x2004, 0x2005, 0x2006, 0x2007, 0x2008, 0x2009, 0x200A, 0x2028, 0x2029, 0x202F, 0x205F,
   0x3000]

/-- The character is whitespace: its code point has the property `White_Space`. -/
def isWhitespace (c : Char) : Bool := decide (c.toNat ∈ whiteSpaceCodes)

/-- The whitespace-separated words of a text: the text is cut at every whitespace
character, and the pieces that are not empty are the words. -/
def specWords (text : String) : List String :=
  ((text.data.splitOnP isWhitespace).filter (fun piece => !piece.isEmpty)).map String.mk

/-- The text begins with whitespace. -/
def beginsWithSpace (text : String) : Bool :=
  match text.data.head? with
  | none => false
  | some c => isWhitespace c

/-- The measure of a text as the specification words it: the leading gap, plus for
every whitespace-separated word its advance in whole pixels (floor division by 64) and
its gap, where `L` is the line height of the face in whole pixels. -/
def specStringSize (face : Face) (text : String) : Int :=
  let L := face.Height.fdiv 64
  (if beginsWithSpace text then L.tdiv 3 else 0) +
    ((specWords text).map (fun word => (face.MeasureString word).fdiv 64 + specGap L word)).sum

/-- The first font-size lookup on a path of style handles (the node first, then its
ancestors) that is neither `NoStyles` nor `InheritValue`: where the walk towards the
root stops. -/
def firstDecisive (σ : Store) : List StylePtr → Option (Int × Option CssError)
  | [] => none
  | s :: rest =>
    if (σ s).GetFontSize.2 = some CssError.NoStyles
        ∨ (σ s).GetFontSize.2 = some CssError.InheritValue then firstDecisive σ rest
    else some (σ s).GetFontSize

mutual
/-- The pre-order listing of the element nodes reachable from a node through element
children: the node itself when it is an element, then the listings of its element
children, in sibling order. -/
def preorderElements : RenderableDomElement → List RenderableDomElement
  | .mk ty data st kids =>
    (if ty = NodeType.ElementNode then [.mk ty data st kids] else []) ++
      preorderChildren kids
/-- The pre-order listings of the element nodes among a list of siblings. -/
def preorderChildren : List RenderableDomElement → List RenderableDomElement
  | [] => []
  | c :: cs =>
    match c.Typ with
    | NodeType.ElementNode => preorderElements c ++ preorderChildren cs
    | _ => preorderChildren cs
end

/-- What one child adds to the height of its parent, as the specification words it:
the larger of its height and of its resolved font size (`none` when one of the two
calls panics). -/
def childContribution (σ : Store) (anc : List StylePtr) (w : Int)
    (c : RenderableDomElement) : Option Int :=
  match GetHeightInPx σ anc c w, GetFontSize σ c.Styles anc with
  | some (cH, _), some f => some (max cH f)
  | _, _ => none

/-- The maximum of a list of widths (`none` for the empty list). -/
def listMax : List Int → Option Int
  | [] => none
  | x :: xs =>
    match listMax xs with
    | none => some x
    | some m => some (max x m)

/-- The running sums of a list, first element first: `x₁`, `x₁ + x₂`, ... -/
def partialSums : List Int → List Int
  | [] => []
  | x :: xs => x :: (partialSums xs).map (x + ·)

/-! ## Example inputs -/

/-- A face with a line height of 19 px, an ascent of 14 px and glyphs that all
advance by 7 px. -/
def exFace : Face := ⟨19 * 64, 14 * 64, fun word => 448 * word.length⟩

/-- A style handle without any rule: no font size, no explicit height, no display
value, no background. -/
def exStyle : StyledElement :=
  ⟨(0, some CssError.NoStyles), -1, "", fun _ => exFace, (none, some CssError.NoStyles)⟩

/-- Every handle answers as `exStyle`. -/
def exStore : Store := fun _ => exStyle

/-- As `exStore`, but the handle at address 0 has the font size 20. -/
def exFontStore : Store := fun s =>
  if s = some 0 then { exStyle with GetFontSize := (20, none) } else exStyle

/-- As `exStore`, but the handle at address 0 has the explicit height 40. -/
def exHeightStore : Store := fun s =>
  if s = some 0 then { exStyle with FollowCascadeToPxHeight := 40 } else exStyle

/-- As `exStore`, but the handle at address 0 has the display value `inline-block`. -/
def exDisplayStore : Store := fun s =>
  if s = some 0 then { exStyle with DisplayProp := "inline-block" } else exStyle

/-- A face whose strings all advance by minus one pixel. -/
def exNegFace : Face := ⟨0, 0, fun _ => -64⟩

/-- Every handle answers as `exStyle`, with the face `exNegFace`. -/
def exNegStore : Store := fun _ => { exStyle with GetFontFace := fun _ => exNegFace }

/-- A text node, with the style handle at address 1. -/
def exText (text : String) : RenderableDomElement :=
  .mk NodeType.TextNode text (some 1) []

/-- A paragraph holding one text node, with the style handle at address 0. -/
def exPara (text : String) : RenderableDomElement :=
  .mk NodeType.ElementNode "p" (some 0) [exText text]

/-- A heading holding one text node, with the style handle at address 0. -/
def exHeading (text : String) : RenderableDomElement :=
  .mk NodeType.ElementNode "h1" (some 0) [exText text]

/-- An element without children and with a nil `Styles`. -/
def exBare : RenderableDomElement :=
  .mk NodeType.ElementNode "div" none []

/-- The face of a font of the given size: a line height of `size` px, an ascent of three
quarters of it, and glyphs that all advance by half of it. -/
def exScaledFace (size : Int) : Face :=
  ⟨size * 64, size * 48, fun word => size * 32 * word.length⟩

/-- A style handle with the given font-size lookup and display value, whose faces are
the `exScaledFace`; no explicit height, no background. -/
def exStyled (fontSize : Int × Option CssError) (display : String) : StyledElement :=
  ⟨fontSize, -1, display, exScaledFace, (none, some CssError.NoStyles)⟩

/-- Handles without any rule, with the faces `exScaledFace`. -/
def exScaledStore : Store := fun _ => exStyled (0, some CssError.NoStyles) ""

/-- Every handle answers as `exStyle`, with the display value `inline`. -/
def exInlineStore : Store := fun _ => { exStyle with DisplayProp := "inline" }

/-- A heading holding the two text nodes `a` and `b`, with the style handles at the
addresses 0, 1 and 2. -/
def exHeadingTwo : RenderableDomElement :=
  .mk NodeType.ElementNode "h1" (some 0)
    [.mk NodeType.TextNode "a" (some 1) [], .mk NodeType.TextNode "b" (some 2) []]

/-- A `span` without children, with the style handle at address 2. -/
def exEmptySpan : RenderableDomElement :=
  .mk NodeType.ElementNode "span" (some 2) []

/-- A `span` (handle 0) holding an empty `span` (handle 2) and then a `span` (handle 3)
with the text `hello, world.` (handle 1). -/
def exSpanRow : RenderableDomElement :=
  .mk NodeType.ElementNode "span" (some 0)
    [exEmptySpan, .mk NodeType.ElementNode "span" (some 3) [exText "hello, world."]]

/-- A `div` (handle 2) holding the heading `exHeading "Title"`. -/
def exDivHeading : RenderableDomElement :=
  .mk NodeType.ElementNode "div" (some 2) [exHeading "Title"]

/-- A `div` (handle 2) holding the element `exBare`, whose `Styles` is nil. -/
def exDivBare : RenderableDomElement :=
  .mk NodeType.ElementNode "div" (some 2) [exBare]

/-- The tree `div [p [span], text]`. -/
def exWalkTree : RenderableDomElement :=
  .mk NodeType.ElementNode "div" (some 0)
    [.mk NodeType.ElementNode "p" (some 1) [.mk NodeType.ElementNode "span" (some 2) []],
     .mk NodeType.TextNode "text" (some 3) []]

/-- As `exStore`, but the font-size lookup of the handle at address 0 fails and the one
of the handle at address 1 is resolved to 12. -/
def exFailStore : Store := fun s =>
  if s = some 0 then { exStyle with GetFontSize := (0, some CssError.Other) }
  else if s = some 1 then { exStyle with GetFontSize := (12, none) }
  else exStyle

/-- As `exStore`, but the handles at the addresses 1 and 2 have the explicit height
`2^62`. -/
def exHugeStore : Store := fun s =>
  if s = some 1 ∨ s = some 2 then
    { exStyle with FollowCascadeToPxHeight := 4611686018427387904 }
  else exStyle

/-- A `div` (handle 0) holding two `div` without children (handles 1 and 2). -/
def exTwoDivs : RenderableDomElement :=
  .mk NodeType.ElementNode "div" (some 0)
    [.mk NodeType.ElementNode "div" (some 1) [], .mk NodeType.ElementNode "div" (some 2) []]

/-! ## Lemmas on the text metrics -/

theorem fieldsFrom_ne_empty (cs : List Char) :
    ∀ (cur : List Char) (w : String), w ∈ fieldsFrom cur cs → w.data ≠ [] := by
  induction cs with
  | nil =>
    intro cur w hw
    unfold fieldsFrom at hw
    split at hw
    · simp at hw
    · rename_i hcur
      simp only [List.mem_singleton] at hw
      subst hw
      simpa using hcur
  | cons c cs ih =>
    intro cur w hw
    unfold fieldsFrom at hw
    split at hw
    · split at hw
      · exact ih _ _ hw
      · rename_i hcur
        rcases List.mem_cons.mp hw with h | h
        · subst h
          simpa using hcur
        · exact ih _ _ h
    · exact ih _ _ hw

theorem shiftRight_six (x : Int) : x >>> (6 : Nat) = x.fdiv 64 := by
  rw [Int.shiftRight_eq_div_pow, Int.fdiv_eq_ediv _ (by decide)]
  rfl

theorem shiftRight_six_nonneg (x : Int) (hx : 0 ≤ x) : 0 ≤ x >>> (6 : Nat) := by
  rw [Int.shiftRight_eq_div_pow]
  exact Int.ediv_nonneg hx (by decide)

theorem lastByte_ascii (word : String) (c : Char) (n : Nat) (hn : n < 128)
    (hv : (Char.ofNat n).toNat = n)
    (hc : word.data.getLast? = some c) : lastByte word = n ↔ c = Char.ofNat n := by
  unfold lastByte
  rw [hc]
  constructor
  · intro h
    by_cases hlt : c.toNat < 0x80
    · simp only [hlt, if_true] at h
      rw [← h, Char.ofNat_toNat]
    · simp only [hlt, if_false] at h
      omega
  · intro h
    subst h
    simp [hv, hn]

theorem punctuationSpace_zero (L : Int) (word : String) :
    punctuationSpace L 0 word = specGap L word := by
  unfold punctuationSpace specGap
  rcases hc : word.data.getLast? with _ | c
  · simp [lastByte, hc, Int.zero_shiftRight]
  · simp only [Int.zero_shiftRight, zero_add,
      lastByte_ascii word c 44 (by decide) (by decide) hc,
      lastByte_ascii word c 59 (by decide) (by decide) hc,
      lastByte_ascii word c 58 (by decide) (by decide) hc,
      lastByte_ascii word c 33 (by decide) (by decide) hc,
      lastByte_ascii word c 63 (by decide) (by decide) hc,
      lastByte_ascii word c 46 (by decide) (by decide) hc]

theorem punctuationSpace_nonneg (L : Int) (hL : 0 ≤ L) (word : String) :
    0 ≤ punctuationSpace L 0 word := by
  have h2 : 0 ≤ L.tdiv 2 := Int.tdiv_nonneg hL (by decide)
  have h3 : 0 ≤ L.tdiv 3 := Int.tdiv_nonneg hL (by decide)
  unfold punctuationSpace
  simp only [Int.zero_shiftRight, zero_add]
  split
  · exact h2
  · split
    · exact hL
    · exact h3

theorem foldl_add_sum (g : String → Int) (l : List String) (a : Int) :
    l.foldl (fun s w => s + g w) a = a + (l.map g).sum := by
  induction l generalizing a with
  | nil => simp
  | cons w ws ih => simp [List.foldl_cons, ih, add_assoc]

theorem foldl_add_nonneg (g : String → Int) (hg : ∀ w, 0 ≤ g w) (l : List String) (a : Int)
    (ha : 0 ≤ a) : 0 ≤ l.foldl (fun s w => s + g w) a := by
  induction l generalizing a with
  | nil => simpa using ha
  | cons w ws ih =>
    simp only [List.foldl_cons]
    exact ih _ (add_nonneg ha (hg w))

theorem IsSpace_eq_isWhitespace (c : Char) : IsSpace c = isWhitespace c := by
  unfold IsSpace isWhitespace whiteSpaceCodes
  generalize c.toNat = n
  simp only [List.mem_cons, List.mem_singleton, List.not_mem_nil, or_false]
  by_cases h : n ≤ 0xFF
  · simp only [h, if_true]
    apply decide_eq_decide.mpr
    omega
  · simp only [h, if_false]
    apply decide_eq_decide.mpr
    omega

theorem modifyHead_nil_append (l : List (List Char)) :
    l.modifyHead (fun x => [] ++ x) = l := by
  cases l <;> simp

theorem fieldsFrom_eq_splitOnP (cs : List Char) :
    ∀ cur : List Char, fieldsFrom cur cs =
      ((((cs.splitOnP IsSpace).modifyHead (fun x => cur ++ x)).filter
        (fun piece => !piece.isEmpty)).map String.mk) := by
  induction cs with
  | nil =>
    intro cur
    unfold fieldsFrom
    cases cur <;> simp [List.splitOnP_nil]
  | cons c cs ih =>
    intro cur
    unfold fieldsFrom
    rw [List.splitOnP_cons]
    by_cases hc : IsSpace c = true
    · simp only [hc, if_true, List.modifyHead_cons]
      rw [ih [], modifyHead_nil_append]
      cases cur <;> simp
    · have hc2 : IsSpace c = false := by simpa using hc
      simp only [hc2, Bool.false_eq_true, if_false]
      rw [ih (cur ++ [c]), List.modifyHead_modifyHead]
      congr 3
      funext l
      simp

theorem stringSize_nonneg (face : Face) (hH : 0 ≤ face.Height)
    (hM : ∀ word, 0 ≤ face.MeasureString word) (text : String) :
    0 ≤ (stringSize face 0 text).1 := by
  unfold stringSize
  have hL : 0 ≤ face.Height >>> (6 : Nat) := shiftRight_six_nonneg _ hH
  have h3 : 0 ≤ (face.Height >>> (6 : Nat)).tdiv 3 := Int.tdiv_nonneg hL (by decide)
  have := foldl_add_nonneg (fun word => (face.MeasureString word >>> (6 : Nat))
      + punctuationSpace (face.Height >>> (6 : Nat)) 0 word)
    (fun word => add_nonneg (shiftRight_six_nonneg _ (hM word))
      (punctuationSpace_nonneg _ hL word))
    (Fields text)
    (if IsSpace (DecodeRuneInString text) then (face.Height >>> (6 : Nat)).tdiv 3 else 0)
    (by split <;> [exact h3; exact le_refl 0])
  simp only [← add_assoc] at this
  exact this

/-! ## Lemmas on geometry and paint -/

mutual
theorem GetHeightInPx_width_indep (σ : Store) (w1 w2 : Int) :
    ∀ (anc : List StylePtr) (e : RenderableDomElement),
      GetHeightInPx σ anc e w1 = GetHeightInPx σ anc e w2
  | anc, .mk ty data st kids => by
    unfold GetHeightInPx
    rw [heightLoop_width_indep σ w1 w2 (st :: anc) kids 0]
theorem heightLoop_width_indep (σ : Store) (w1 w2 : Int) :
    ∀ (anc : List StylePtr) (kids : List RenderableDomElement) (acc : Int),
      heightLoop σ anc kids w1 acc = heightLoop σ anc kids w2 acc
  | _, [], _ => by simp [heightLoop]
  | anc, c :: cs, acc => by
    unfold heightLoop
    rw [GetHeightInPx_width_indep σ w1 w2 anc c]
    simp only [heightLoop_width_indep σ w1 w2 anc cs]
end

theorem widthLoop_ge (σ : Store) (anc : List StylePtr) (w : Int) :
    ∀ (kids : List RenderableDomElement) (acc c : Int),
      widthLoop σ anc kids w acc = some c → acc ≤ c := by
  intro kids
  induction kids with
  | nil =>
    intro acc c h
    simp only [widthLoop, Option.some.injEq] at h
    omega
  | cons k ks ih =>
    intro acc c h
    unfold widthLoop at h
    split at h
    · simp at h
    · split at h
      · have := ih _ _ h
        omega
      · exact ih _ _ h

theorem NewRGBA_rect (r : Rectangle) (img : Image) (h : NewRGBA r = some img) :
    img.Rect = r := by
  unfold NewRGBA at h
  split at h
  · simp at h
  · split at h
    · simp at h
    · simp only [Option.some.injEq] at h
      rw [← h]

/-- The bounds of the image `Render` returns: from the origin to the width and the
floored height that the node has once the heading override is done. -/
theorem Render_dst_rect (σ : Store) (anc : List StylePtr) (e : RenderableDomElement)
    (w : Int) (img : Image) (h : (Render σ anc e w).map Rendered.dst = some img) :
    ∃ hgt eh wd ew,
      GetHeightInPx (headingOverride σ e) anc e w = some (hgt, eh) ∧
      GetWidthInPx (headingOverride σ e) anc e w = some (wd, ew) ∧
      img.Rect = ⟨⟨0, 0⟩, ⟨wd, if hgt < 0 then 0 else hgt⟩⟩ := by
  cases e with
  | mk ty data st kids =>
    unfold Render at h
    split at h
    · simp at h
    · simp only at h
      split at h
      · simp at h
      · rename_i hgt eh hH
        split at h
        · simp at h
        · rename_i wd ew hW
          split at h
          · simp at h
          · split at h
            · simp at h
            · rename_i dst hdst
              split at h
              · simp at h
              · simp only [Option.map_some', Option.some.injEq] at h
                refine ⟨hgt, eh, wd, ew, hH, hW, ?_⟩
                rw [← h]
                exact NewRGBA_rect _ dst hdst

theorem GetFontSize_eq_firstDecisive (σ : Store) (anc : List StylePtr) :
    ∀ s : StylePtr, GetFontSize σ s anc =
      match firstDecisive σ (s :: anc) with
      | none => some DefaultFontSize
      | some (v, none) => some v
      | some (_, some _) => none := by
  induction anc with
  | nil =>
    intro s
    unfold GetFontSize
    rcases hfs : (σ s).GetFontSize with ⟨v, err⟩
    rcases err with _ | err
    · simp [firstDecisive, hfs]
    · cases err <;> simp [firstDecisive, hfs]
  | cons p ps ih =>
    intro s
    unfold GetFontSize
    rcases hfs : (σ s).GetFontSize with ⟨v, err⟩
    rcases err with _ | err
    · simp [firstDecisive, hfs]
    · cases err
      · simp only [ih p]
        conv => rhs; unfold firstDecisive
        simp [hfs]
      · simp only [ih p]
        conv => rhs; unfold firstDecisive
        simp [hfs]
      · simp [firstDecisive, hfs]

theorem firstDecisive_append (σ : Store) (rest : List StylePtr) (x : Int × Option CssError) :
    ∀ l : List StylePtr, firstDecisive σ l = some x → firstDecisive σ (l ++ rest) = some x := by
  intro l
  induction l with
  | nil => intro h; simp [firstDecisive] at h
  | cons s l ih =>
    intro h
    simp only [List.cons_append]
    unfold firstDecisive at h ⊢
    split
    · rename_i hc
      rw [if_pos hc] at h
      exact ih h
    · rename_i hc
      rw [if_neg hc] at h
      exact h

theorem firstDecisive_err (σ : Store) (v : Int) (e : CssError) :
    ∀ l : List StylePtr, firstDecisive σ l = some (v, some e) → e = CssError.Other := by
  intro l
  induction l with
  | nil => intro h; simp [firstDecisive] at h
  | cons s l ih =>
    intro h
    unfold firstDecisive at h
    split at h
    · exact ih h
    · rename_i hc
      simp only [Option.some.injEq] at h
      rw [h] at hc
      cases e <;> simp_all

theorem wrapInt_of_fits (v : Int) (h : -9223372036854775808 ≤ v ∧ v < 9223372036854775808) :
    wrapInt v = v := by
  unfold wrapInt
  omega

theorem heightLoop_eq_sum (σ : Store) (anc : List StylePtr) (w : Int) :
    ∀ (kids : List RenderableDomElement) (cs : List Int) (acc : Int),
      kids.map (childContribution σ anc w) = cs.map some →
      (∀ s ∈ partialSums cs,
        -9223372036854775808 ≤ acc + s ∧ acc + s < 9223372036854775808) →
      heightLoop σ anc kids w acc = some (acc + cs.sum) := by
  intro kids
  induction kids with
  | nil =>
    intro cs acc h _
    cases cs with
    | nil => simp [heightLoop]
    | cons x xs => simp at h
  | cons k ks ih =>
    intro cs acc h hfit
    cases cs with
    | nil => simp at h
    | cons x xs =>
      simp only [List.map_cons, List.cons.injEq] at h
      obtain ⟨hk, hrest⟩ := h
      have hx := hfit x (by simp [partialSums])
      have hxs : ∀ s ∈ partialSums xs,
          -9223372036854775808 ≤ acc + x + s ∧ acc + x + s < 9223372036854775808 := by
        intro s hs
        have := hfit (x + s) (by
          simp only [partialSums, List.mem_cons, List.mem_map]
          exact Or.inr ⟨s, hs, rfl⟩)
        omega
      unfold heightLoop
      unfold childContribution at hk
      split at hk
      · rename_i cH e1 f hH hF
        simp only [Option.some.injEq] at hk
        simp only [hH, hF]
        split
        · have hxf : x = f := by rw [← hk]; exact max_eq_right (by omega)
          rw [← hxf, wrapInt_of_fits _ hx, ih xs _ hrest hxs, List.sum_cons]
          simp [add_assoc]
        · have hxf : x = cH := by rw [← hk]; exact max_eq_left (by omega)
          rw [← hxf, wrapInt_of_fits _ hx, ih xs _ hrest hxs, List.sum_cons]
          simp [add_assoc]
      · simp at hk

theorem childContribution_ge (σ : Store) (anc : List StylePtr) (w : Int)
    (c : RenderableDomElement) (x f : Int) (hx : childContribution σ anc w c = some x)
    (hf : GetFontSize σ c.Styles anc = some f) : f ≤ x := by
  unfold childContribution at hx
  split at hx
  · rename_i cH e1 f2 hH hF
    rw [hf] at hF
    simp only [Option.some.injEq] at hF hx
    subst hF
    rw [← hx]
    exact le_max_right _ _
  · simp at hx

theorem widthLoop_eq_foldl (σ : Store) (anc : List StylePtr) (w : Int) :
    ∀ (kids : List RenderableDomElement) (ws : List Int) (acc : Int),
      kids.map (fun c => (GetWidthInPx σ anc c w).map Prod.fst) = ws.map some →
      widthLoop σ anc kids w acc = some (ws.foldl max acc) := by
  intro kids
  induction kids with
  | nil =>
    intro ws acc h
    cases ws with
    | nil => simp [widthLoop]
    | cons x xs => simp at h
  | cons k ks ih =>
    intro ws acc h
    cases ws with
    | nil => simp at h
    | cons x xs =>
      simp only [List.map_cons, List.cons.injEq] at h
      obtain ⟨hk, hrest⟩ := h
      unfold widthLoop
      rcases hW : GetWidthInPx σ anc k w with _ | ⟨cW, e1⟩
      · rw [hW] at hk; simp at hk
      · rw [hW] at hk
        simp only [Option.map_some', Option.some.injEq] at hk
        subst hk
        simp only [List.foldl_cons]
        split
        · rw [ih xs _ hrest, max_eq_right (by omega)]
        · rw [ih xs _ hrest, max_eq_left (by omega)]

theorem foldl_max_listMax (ws : List Int) :
    ∀ acc : Int, ws.foldl max acc =
      match listMax ws with
      | none => acc
      | some m => max acc m := by
  induction ws with
  | nil => intro acc; simp [listMax]
  | cons x xs ih =>
    intro acc
    simp only [List.foldl_cons, listMax]
    rw [ih]
    rcases listMax xs with _ | m
    · simp
    · simp [max_assoc]

theorem SetFontSize_apply (σ : Store) (p s : StylePtr) (px : Int) :
    SetFontSize σ p px s =
      if s = p then { σ s with GetFontSize := (px, none) } else σ s := by
  unfold SetFontSize
  by_cases h : s = p
  · subst h
    simp
  · simp [Function.update, h]

theorem foldl_SetFontSize_apply (px : Int) (s : StylePtr) :
    ∀ (kids : List RenderableDomElement) (τ : Store),
      (kids.foldl (fun τ c => SetFontSize τ c.Styles px) τ) s =
        if s ∈ kids.map RenderableDomElement.Styles
        then { τ s with GetFontSize := (px, none) } else τ s := by
  intro kids
  induction kids with
  | nil => intro τ; simp
  | cons c cs ih =>
    intro τ
    simp only [List.foldl_cons, List.map_cons, List.mem_cons]
    rw [ih, SetFontSize_apply]
    by_cases h1 : s = c.Styles
    · simp [h1]
    · simp [h1]

theorem headingOverride_heading (σ : Store) (e : RenderableDomElement) (s : StylePtr)
    (hty : e.Typ = NodeType.ElementNode) (hdata : e.Data = "h1") :
    ((s = e.Styles ∨ s ∈ e.Children.map RenderableDomElement.Styles) →
      (headingOverride σ e s).GetFontSize = (DefaultFontSize * 2, none)) ∧
    (¬ (s = e.Styles ∨ s ∈ e.Children.map RenderableDomElement.Styles) →
      headingOverride σ e s = σ s) := by
  unfold headingOverride
  rw [if_pos ⟨hty, hdata⟩, foldl_SetFontSize_apply, SetFontSize_apply]
  constructor
  · intro h
    by_cases h1 : s ∈ e.Children.map RenderableDomElement.Styles
    · simp [h1]
    · rcases h with h | h
      · simp [h1, h]
      · exact absurd h h1
  · intro h
    rw [not_or] at h
    simp [h.1, h.2]

theorem GetFontSize_resolved (σ : Store) (s : StylePtr) (anc : List StylePtr) (v : Int)
    (h : (σ s).GetFontSize = (v, none)) : GetFontSize σ s anc = some v := by
  unfold GetFontSize
  rw [h]

theorem GetFontSize_congr (σ τ : Store) (anc : List StylePtr) :
    ∀ s : StylePtr, (∀ x ∈ s :: anc, τ x = σ x) → GetFontSize τ s anc = GetFontSize σ s anc := by
  induction anc with
  | nil =>
    intro s h
    unfold GetFontSize
    rw [h s (by simp)]
  | cons p ps ih =>
    intro s h
    unfold GetFontSize
    simp only [h s (by simp), ih p (fun x hx => h x (List.mem_cons_of_mem _ hx))]

theorem paintChildren_text (σ : Store) (anc : List StylePtr) (fontFace : Face)
    (fSize width containerWidth : Int) :
    ∀ (kids : List RenderableDomElement) (pen : Pen),
      (∀ c ∈ kids, c.Typ = NodeType.TextNode) →
      ∃ pen2, paintChildren σ anc fontFace fSize width containerWidth kids pen = some (pen2, σ) := by
  intro kids
  induction kids with
  | nil => intro pen _; exact ⟨pen, by simp [paintChildren]⟩
  | cons c cs ih =>
    intro pen h
    unfold paintChildren
    rw [h c (by simp)]
    exact ih _ (fun c hc => h c (List.mem_cons_of_mem _ hc))

theorem Render_styles_text_children (σ : Store) (anc : List StylePtr)
    (e : RenderableDomElement) (w : Int) (r : Rendered)
    (htext : ∀ c ∈ e.Children, c.Typ = NodeType.TextNode)
    (hret : Render σ anc e w = some r) : r.styles = headingOverride σ e := by
  cases e with
  | mk ty data st kids =>
    unfold Render at hret
    split at hret
    · simp at hret
    · simp only at hret
      split at hret
      · simp at hret
      · split at hret
        · simp at hret
        · split at hret
          · simp at hret
          · split at hret
            · simp at hret
            · split at hret
              · simp at hret
              · rename_i pen σ2 hp
                obtain ⟨pen2, hp2⟩ := paintChildren_text (headingOverride σ (.mk ty data st kids))
                  (st :: anc) _ _ _ w kids _ htext
                rw [hp2] at hp
                simp only [Option.some.injEq, Prod.mk.injEq] at hp hret
                rw [← hret]
                exact hp.2.symm

theorem walkLoop_element (c : RenderableDomElement) (cs : List RenderableDomElement)
    (h : c.Typ = NodeType.ElementNode) :
    walkLoop (c :: cs) = c :: c :: (walkLoop c.Children ++ walkLoop cs) := by
  cases c with
  | mk ty data st kids =>
    simp only [RenderableDomElement.Typ] at h
    subst h
    simp [walkLoop, Walk, RenderableDomElement.Typ, RenderableDomElement.Children]

theorem advancePastChild_dot (fontFace : Face) (display : String)
    (childWidth childHeight : Int) (pen : Pen) :
    (display = "inline" →
      (advancePastChild fontFace display childWidth childHeight pen).dot
        = ⟨pen.dot.X + childWidth, pen.dot.Y⟩) ∧
    (display ≠ "inline" →
      (advancePastChild fontFace display childWidth childHeight pen).dot
        = ⟨0, pen.dot.Y + childHeight⟩) := by
  unfold advancePastChild
  constructor
  · intro h
    simp [h]
  · intro h
    simp [h]

/-- One turn of the child loop of `Render` on an element child: the height of the child
is taken against `width`, its width against `containerWidth`, both before the child is
rendered, and the cursor moves by these two values. -/
theorem paintChildren_element (σ : Store) (anc : List StylePtr) (fontFace : Face)
    (fSize width containerWidth : Int) (c : RenderableDomElement)
    (cs : List RenderableDomElement) (pen : Pen) (res : Pen × Store)
    (hc : c.Typ = NodeType.ElementNode)
    (h : paintChildren σ anc fontFace fSize width containerWidth (c :: cs) pen = some res) :
    ∃ childHeight e1 childWidth e2 childImage,
      GetHeightInPx σ anc c width = some (childHeight, e1) ∧
      GetWidthInPx σ anc c containerWidth = some (childWidth, e2) ∧
      Render σ anc c width = some childImage ∧
      paintChildren childImage.styles anc fontFace fSize width containerWidth cs
        (advancePastChild fontFace (GetDisplayProp childImage.styles c)
          childWidth childHeight pen) = some res := by
  unfold paintChildren at h
  simp only [hc] at h
  split at h
  · simp at h
  · rename_i childHeight e1 hH
    split at h
    · simp at h
    · rename_i childWidth e2 hW
      split at h
      · simp at h
      · split at h
        · simp at h
        · rename_i childImage hR
          exact ⟨childHeight, e1, childWidth, e2, childImage, hH, hW, hR, h⟩

/-- C1: the image that `Render(w)` returns has exactly the width `GetWidthInPx(w)` and
the height `max(GetHeightInPx(w), 0)`, both taken on the node as it is when the buffer
is allocated, that is with the style handles after the heading override. -/
theorem Render_buffer_size (σ : Store) (anc : List StylePtr) (e : RenderableDomElement)
    (w : Int) (img : Image) (h : (Render σ anc e w).map Rendered.dst = some img) :
    ∃ hgt eh wd ew,
      GetHeightInPx (headingOverride σ e) anc e w = some (hgt, eh) ∧
      GetWidthInPx (headingOverride σ e) anc e w = some (wd, ew) ∧
      img.Rect.Dx = wd ∧ img.Rect.Dy = max hgt 0 := by
  obtain ⟨hgt, eh, wd, ew, hH, hW, hrect⟩ := Render_dst_rect σ anc e w img h
  refine ⟨hgt, eh, wd, ew, hH, hW, ?_, ?_⟩
  · simp [hrect, Rectangle.Dx]
  · simp only [hrect, Rectangle.Dy]
    split <;> omega

/-- Witness of C1: a heading rendered in a container of 100 px gives an image of 100 px
by 32 px, the geometry of the heading after its font size was set to 32. -/
theorem Render_buffer_size_witness :
    (Render exStore [] (exHeading "Title") 100).map Rendered.dst
        = some ⟨⟨⟨0, 0⟩, ⟨100, 32⟩⟩, some ⟨0, 224, 224, 0⟩⟩ ∧
    ∃ hgt eh wd ew,
      GetHeightInPx (headingOverride exStore (exHeading "Title")) [] (exHeading "Title") 100
        = some (hgt, eh) ∧
      GetWidthInPx (headingOverride exStore (exHeading "Title")) [] (exHeading "Title") 100
        = some (wd, ew) ∧
      (100 : Int) - 0 = wd ∧ (32 : Int) - 0 = max hgt 0 :=
  ⟨by decide,
   Render_buffer_size exStore [] (exHeading "Title") 100
     ⟨⟨⟨0, 0⟩, ⟨100, 32⟩⟩, some ⟨0, 224, 224, 0⟩⟩ (by decide)⟩

/-- C2: a node whose resolved display type is `block` gets, for every container width
`w ≥ 0`, exactly `w` and no error from `GetWidthInPx`, whatever its children and
content are. -/
theorem GetWidthInPx_block (σ : Store) (anc : List StylePtr) (e : RenderableDomElement)
    (w : Int) (_ : 0 ≤ w) (hblock : GetDisplayProp σ e = "block") :
    GetWidthInPx σ anc e w = some (w, none) := by
  cases e with
  | mk ty data st kids => simp [GetWidthInPx, hblock]

/-- Witness of C2: the paragraph without a display value is a block of width 100. -/
theorem GetWidthInPx_block_witness :
    (0 : Int) ≤ 100 ∧ GetDisplayProp exStore (exPara "hello, world.") = "block" ∧
    GetWidthInPx exStore [] (exPara "hello, world.") 100 = some (100, none) :=
  ⟨by decide, by decide,
   GetWidthInPx_block exStore [] (exPara "hello, world.") 100 (by decide) (by decide)⟩

/-- C3: when the style accessor yields an explicit pixel height `h` (a value other than
the default `-1`), `GetHeightInPx` returns exactly `h` and no error, for every container
width and every list of children. -/
theorem GetHeightInPx_explicit (σ : Store) (anc : List StylePtr) (ty : NodeType)
    (data : String) (st : StylePtr) (kids : List RenderableDomElement) (w h : Int)
    (hh : (σ st).FollowCascadeToPxHeight = h) (hne : h ≠ -1) :
    GetHeightInPx σ anc (.mk ty data st kids) w = some (h, none) := by
  simp [GetHeightInPx, hh, hne]

/-- Witness of C3: a paragraph of explicit height 40 with a text child. -/
theorem GetHeightInPx_explicit_witness :
    (exHeightStore (some 0)).FollowCascadeToPxHeight = 40 ∧ (40 : Int) ≠ -1 ∧
    GetHeightInPx exHeightStore [] (.mk NodeType.ElementNode "p" (some 0) [exText "hello"]) 7
      = some (40, none) :=
  ⟨by decide, by decide,
   GetHeightInPx_explicit exHeightStore [] NodeType.ElementNode "p" (some 0)
     [exText "hello"] 7 40 (by decide) (by decide)⟩

/-- C4: when every font-size lookup on the path from the node to the root yields a
resolved value, `NoStyles` or `InheritValue`, `GetFontSize` returns the resolved value
nearest to the node (the node included), and `DefaultFontSize = 16` when there is
none. -/
theorem GetFontSize_nearest_resolved (σ : Store) (anc : List StylePtr) (st : StylePtr)
    (h : ∀ s ∈ st :: anc, (σ s).GetFontSize.2 ≠ some CssError.Other) :
    GetFontSize σ st anc = some ((nearestResolved σ (st :: anc)).getD DefaultFontSize) ∧
    DefaultFontSize = 16 := by
  refine ⟨?_, rfl⟩
  induction anc generalizing st with
  | nil =>
    have h1 := h st (by simp)
    unfold GetFontSize
    rcases hfs : (σ st).GetFontSize with ⟨v, err⟩
    rw [hfs] at h1
    rcases err with _ | err
    · simp [nearestResolved, hfs]
    · cases err <;> simp_all [nearestResolved]
  | cons p ps ih =>
    have h1 := h st (by simp)
    have h2 := ih p (fun s hs => h s (List.mem_cons_of_mem _ hs))
    unfold GetFontSize
    rcases hfs : (σ st).GetFontSize with ⟨v, err⟩
    rw [hfs] at h1
    rcases err with _ | err
    · simp [nearestResolved, hfs]
    · cases err <;> simp_all [nearestResolved]

/-- Witness of C4: a text node without a font size below a parent of font size 20, and
the same text node below nothing. -/
theorem GetFontSize_nearest_resolved_witness :
    (∀ s ∈ [some 1, some 0], (exFontStore s).GetFontSize.2 ≠ some CssError.Other) ∧
    GetFontSize exFontStore (some 1) [some 0] = some 20 ∧
    GetFontSize exFontStore (some 1) [] = some 16 :=
  ⟨by decide,
   (GetFontSize_nearest_resolved exFontStore [some 0] (some 1) (by decide)).1,
   (GetFontSize_nearest_resolved exFontStore [] (some 1) (by decide)).1⟩

/-- C5, as the code has it: for a node with a style handle, whose explicit height
lookup is `-1` (unset) or non-negative and whose resolved font size is non-negative, the
height `GetHeightInPx(w)` returns is `≥ 0`; for a node with a nil `Styles`, no explicit
height and no positive sum over its children, what it returns is the height `-1` with
the error `NoStyles`. -/
theorem GetHeightInPx_nonneg (σ : Store) (anc : List StylePtr) (e : RenderableDomElement)
    (w : Int) (_ : 0 ≤ w) :
    (e.Styles ≠ none → -1 ≤ (σ e.Styles).FollowCascadeToPxHeight →
      (∀ f, GetFontSize σ e.Styles anc = some f → 0 ≤ f) →
      ∀ h err, GetHeightInPx σ anc e w = some (h, err) → 0 ≤ h) ∧
    (e.Styles = none → (σ e.Styles).FollowCascadeToPxHeight = -1 →
      ∀ c, heightLoop σ (e.Styles :: anc) e.Children w 0 = some c → c ≤ 0 →
        GetHeightInPx σ anc e w = some (-1, some CssError.NoStyles)) := by
  cases e with
  | mk ty data st kids =>
    simp only [RenderableDomElement.Styles, RenderableDomElement.Children]
    constructor
    · intro hst hexp hfs h err hret
      unfold GetHeightInPx at hret
      simp only at hret
      split at hret
      · simp only [Option.some.injEq, Prod.mk.injEq] at hret
        omega
      · split at hret
        · simp at hret
        · split at hret
          · simp only [Option.some.injEq, Prod.mk.injEq] at hret
            omega
          · split at hret
            · simp at hret
            · rename_i f hf
              simp only [Option.some.injEq, Prod.mk.injEq] at hret
              have := hfs f hf
              omega
    · intro hst hexp c hc hle
      unfold GetHeightInPx
      simp only [hexp, ne_eq, not_true_eq_false, if_false, hc]
      rw [if_neg (by omega), if_pos hst]

/-- Witness of C5: the paragraph with a style handle has the height 16; the childless
element with a nil `Styles` has the height `-1`. -/
theorem GetHeightInPx_nonneg_witness :
    (0 : Int) ≤ 100 ∧
    GetHeightInPx exStore [] (exPara "hello") 100 = some (16, none) ∧ (0 : Int) ≤ 16 ∧
    heightLoop exStore [none] [] 100 0 = some 0 ∧
    GetHeightInPx exStore [] exBare 100 = some (-1, some CssError.NoStyles) :=
  ⟨by decide, by decide,
   (GetHeightInPx_nonneg exStore [] (exPara "hello") 100 (by decide)).1
     (by decide) (by decide)
     (fun f hf => by
       have h16 : GetFontSize exStore (some 0) [] = some 16 := by decide
       have hf2 : GetFontSize exStore (some 0) [] = some f := hf
       rw [h16] at hf2
       cases hf2
       decide)
     16 none (by decide),
   by decide,
   (GetHeightInPx_nonneg exStore [] exBare 100 (by decide)).2
     rfl (by decide) 0 (by decide) (by decide)⟩

/-- Counterexample to C5 as stated: an element with a nil `Styles` and no children gets
the height `-1` for the container width 100, so not every returned height is `≥ 0`. -/
theorem GetHeightInPx_negative_without_styles :
    GetHeightInPx exStore [] exBare 100 = some (-1, some CssError.NoStyles) ∧
    ¬ (∀ (σ : Store) (anc : List StylePtr) (e : RenderableDomElement) (w h : Int)
        (err : Option CssError),
        0 ≤ w → GetHeightInPx σ anc e w = some (h, err) → 0 ≤ h) :=
  ⟨by decide, fun H =>
    absurd (H exStore [] exBare 100 (-1) (some CssError.NoStyles) (by decide) (by decide))
      (by decide)⟩

/-- C6, as the code has it: for `w ≥ 0` the width `GetWidthInPx(w)` returns is `≥ 0`,
for block nodes, inline elements and text nodes alike, provided the font face that
measures a text node reports a non-negative line height and non-negative advances. -/
theorem GetWidthInPx_nonneg (σ : Store) (anc : List StylePtr) (e : RenderableDomElement)
    (w wd : Int) (err : Option CssError) (hw : 0 ≤ w)
    (hface : e.Typ = NodeType.TextNode → ∀ f, GetFontSize σ e.Styles anc = some f →
      0 ≤ ((σ e.Styles).GetFontFace f).Height ∧
      ∀ word, 0 ≤ ((σ e.Styles).GetFontFace f).MeasureString word)
    (hret : GetWidthInPx σ anc e w = some (wd, err)) : 0 ≤ wd := by
  cases e with
  | mk ty data st kids =>
    unfold GetWidthInPx at hret
    split at hret
    · simp only [Option.some.injEq, Prod.mk.injEq] at hret
      omega
    · split at hret
      · rename_i hty
        split at hret
        · simp at hret
        · rename_i f hf
          have hfc := hface hty f hf
          have := stringSize_nonneg _ hfc.1 hfc.2 data
          simp only [Option.some.injEq] at hret
          simp only [RenderableDomElement.Styles] at this
          rw [hret] at this
          exact this
      · split at hret
        · simp at hret
        · rename_i c hc
          have := widthLoop_ge σ _ w kids 0 c hc
          split at hret <;>
            (simp only [Option.some.injEq, Prod.mk.injEq] at hret; omega)

/-- Witness of C6: the text `hello, world.` measures 112 px with the face `exFace`. -/
theorem GetWidthInPx_nonneg_witness :
    (0 : Int) ≤ 100 ∧
    GetWidthInPx exStore [some 0] (exText "hello, world.") 100 = some (112, none) ∧
    (0 : Int) ≤ 112 :=
  ⟨by decide, by decide,
   GetWidthInPx_nonneg exStore [some 0] (exText "hello, world.") 100 112 none (by decide)
     (fun _ _ _ => ⟨Int.mul_nonneg (by decide) (by decide),
       fun word => Int.mul_nonneg (by decide) (Int.ofNat_nonneg word.length)⟩)
     (by decide)⟩

/-- Counterexample to C6 as stated: with a face whose strings advance by minus one
pixel, the text node `a` measures `-1` for the container width 100. -/
theorem GetWidthInPx_negative_advance :
    GetWidthInPx exNegStore [] (exText "a") 100 = some (-1, none) ∧
    ¬ (∀ (σ : Store) (anc : List StylePtr) (e : RenderableDomElement) (w wd : Int)
        (err : Option CssError),
        0 ≤ w → GetWidthInPx σ anc e w = some (wd, err) → 0 ≤ wd) :=
  ⟨by decide, fun H =>
    absurd (H exNegStore [] (exText "a") 100 (-1) none (by decide) (by decide))
      (by decide)⟩

/-- C7: with the pen at `x = 0`, `stringSize` returns the leading gap (`L / 3` when
the text begins with whitespace) plus, over the whitespace-separated words of the text,
the advance of the word `>> 6` and its gap (`L / 2` after `, ; : ! ?`, `L` after `.`,
`L / 3` otherwise), with `L` the line height of the face `>> 6`, a floor division by 64;
for the empty text it returns 0. -/
theorem stringSize_eq_spec (face : Face) (text : String) :
    stringSize face 0 text = (specStringSize face text, none) ∧
    stringSize face 0 "" = (0, none) := by
  have hwords : Fields text = specWords text := by
    unfold Fields specWords
    rw [fieldsFrom_eq_splitOnP, funext IsSpace_eq_isWhitespace]
    congr 2
    cases (List.splitOnP isWhitespace text.data) <;> simp
  have hlead : IsSpace (DecodeRuneInString text) = beginsWithSpace text := by
    unfold DecodeRuneInString beginsWithSpace
    rcases text.data with _ | ⟨c, cs⟩
    · decide
    · exact IsSpace_eq_isWhitespace c
  constructor
  · unfold stringSize specStringSize
    simp only [hlead, punctuationSpace_zero, shiftRight_six, hwords]
    rw [Prod.mk.injEq]
    refine ⟨?_, rfl⟩
    have := foldl_add_sum (fun word => (face.MeasureString word).fdiv 64
      + specGap (face.Height.fdiv 64) word) (specWords text)
      (if beginsWithSpace text then (face.Height.fdiv 64).tdiv 3 else 0)
    simp only [← add_assoc] at this
    exact this
  · simp [stringSize, Fields, fieldsFrom, DecodeRuneInString, IsSpace]

/-- Witness of C7: with a line height of 19 px and 7 px per glyph, the text
` Hello, world. ok` has the three words `Hello,`, `world.` and `ok` and measures
6 + (42 + 9) + (42 + 19) + (14 + 6) = 138 px; a text of whitespace only measures the
leading gap, 6 px. -/
theorem stringSize_eq_spec_witness :
    stringSize exFace 0 " Hello, world. ok" = (138, none) ∧
    specWords " Hello, world. ok" = ["Hello,", "world.", "ok"] ∧
    specStringSize exFace " Hello, world. ok" = 6 + (42 + 9) + (42 + 19) + (14 + 6) ∧
    stringSize exFace 0 "Hello world" = (35 + 6 + (35 + 6), none) ∧
    stringSize exFace 0 "  " = (6, none) :=
  ⟨by decide, by decide,
   by
    have h := (stringSize_eq_spec exFace " Hello, world. ok").1
    have h2 : stringSize exFace 0 " Hello, world. ok" = (138, none) := by decide
    rw [h2] at h
    simp only [Prod.mk.injEq, and_true] at h
    rw [← h]
    decide,
   by decide, by decide⟩

/-- C8, at a failing input: a paragraph of font size 16 holds the text `a`, and the face
has a line height of 19 px and an advance of 7 px.  `GetWidthInPx` measures the text
child as 7 + 19 / 3 = 13 px, while `Render`, painting it from pen `x = 0` without a line
break, leaves the pen at `x` = 7 + 16 / 3 = 12. -/
theorem stringSize_Render_disagree :
    GetWidthInPx exStore [some 0] (exText "a") 100 = some (13, none) ∧
    (Render exStore [] (exPara "a") 100).map Rendered.dot = some ⟨12, 0⟩ ∧
    stringSize exFace 0 "a" = (13, none) ∧
    (paintText exFace 16 100 "a" ⟨⟨0, 0⟩, fixedP 0 14⟩).dot = ⟨12, 0⟩ := by
  decide

/-- C9: `GetDisplayProp` is `inline` for every text node, whatever its styles say; for
an element node it is the cascaded display value when that is a non-empty string, and
`block` when it is empty. -/
theorem GetDisplayProp_spec (σ : Store) (e : RenderableDomElement) :
    (e.Typ = NodeType.TextNode → GetDisplayProp σ e = "inline") ∧
    (e.Typ = NodeType.ElementNode →
      ((σ e.Styles).DisplayProp ≠ "" → GetDisplayProp σ e = (σ e.Styles).DisplayProp) ∧
      ((σ e.Styles).DisplayProp = "" → GetDisplayProp σ e = "block")) := by
  refine ⟨fun h => by simp [GetDisplayProp, h], fun h => ⟨fun hd => ?_, fun hd => ?_⟩⟩
  · simp [GetDisplayProp, h, hd]
  · simp [GetDisplayProp, h, hd]

/-- Witness of C9: a text node whose handle says `inline-block` is `inline`, an element
with that handle is `inline-block`, an element without a display value is `block`. -/
theorem GetDisplayProp_spec_witness :
    GetDisplayProp exDisplayStore (.mk NodeType.TextNode "a" (some 0) []) = "inline" ∧
    GetDisplayProp exDisplayStore (exPara "a") = "inline-block" ∧
    GetDisplayProp exStore (exPara "a") = "block" :=
  ⟨(GetDisplayProp_spec exDisplayStore (.mk NodeType.TextNode "a" (some 0) [])).1 rfl,
   ((GetDisplayProp_spec exDisplayStore (exPara "a")).2 rfl).1 (by decide),
   ((GetDisplayProp_spec exStore (exPara "a")).2 rfl).2 (by decide)⟩

/-- C12: after `Render` on an `h1` element with two text children, the resolved font size
of both children is exactly `2 * DefaultFontSize = 32`; the stored style answers and the
resolved font size of every node whose path to the root avoids the style handles of the
heading and of its two children, such as the children of a sibling that is not a
heading, are what they were before the call. -/
theorem Render_heading_children_font_size (σ : Store) (anc : List StylePtr) (st : StylePtr)
    (c1 c2 : RenderableDomElement) (w : Int) (r : Rendered) (k : StylePtr)
    (path : List StylePtr)
    (h1t : c1.Typ = NodeType.TextNode) (h2t : c2.Typ = NodeType.TextNode)
    (hret : Render σ anc (.mk NodeType.ElementNode "h1" st [c1, c2]) w = some r)
    (hfresh : ∀ s ∈ k :: path, s ≠ st ∧ s ≠ c1.Styles ∧ s ≠ c2.Styles) :
    GetFontSize r.styles c1.Styles (st :: anc) = some (2 * DefaultFontSize) ∧
    GetFontSize r.styles c2.Styles (st :: anc) = some (2 * DefaultFontSize) ∧
    2 * DefaultFontSize = 32 ∧
    (∀ s ∈ k :: path, r.styles s = σ s) ∧
    GetFontSize r.styles k path = GetFontSize σ k path := by
  have hst := Render_styles_text_children σ anc _ w r
    (by
      intro c hc
      simp only [RenderableDomElement.Children, List.mem_cons, List.mem_singleton,
        List.not_mem_nil, or_false] at hc
      rcases hc with hc | hc <;> (subst hc; assumption))
    hret
  have hov := fun s => headingOverride_heading σ
    (.mk NodeType.ElementNode "h1" st [c1, c2]) s rfl rfl
  have hsame : ∀ s ∈ k :: path, r.styles s = σ s := by
    intro s hs
    rw [hst]
    apply (hov s).2
    have := hfresh s hs
    simp only [RenderableDomElement.Styles, RenderableDomElement.Children, List.map_cons,
      List.map_nil, List.mem_cons, List.mem_singleton, List.not_mem_nil, or_false]
    tauto
  refine ⟨?_, ?_, by decide, hsame, GetFontSize_congr σ r.styles path k hsame⟩
  · apply GetFontSize_resolved
    rw [hst, mul_comm]
    apply (hov _).1
    simp [RenderableDomElement.Children]
  · apply GetFontSize_resolved
    rw [hst, mul_comm]
    apply (hov _).1
    simp [RenderableDomElement.Children]

/-- Witness of C12: the heading with the two text nodes `a` and `b` (handles 0, 1, 2),
and a node with the handle 4 below nodes with the handles 3 and 5. -/
theorem Render_heading_children_font_size_witness :
    (∀ s ∈ [some 4, some 3, some 5], s ≠ some 0 ∧ s ≠ some 1 ∧ s ≠ some 2) ∧
    ∃ r, Render exStore [] exHeadingTwo 100 = some r ∧
      GetFontSize r.styles (some 1) [some 0] = some (2 * DefaultFontSize) ∧
      GetFontSize r.styles (some 2) [some 0] = some (2 * DefaultFontSize) ∧
      GetFontSize r.styles (some 4) [some 3, some 5] = some 16 := by
  refine ⟨by decide, ?_⟩
  have hs : (Render exStore [] exHeadingTwo 100).isSome = true := by decide
  obtain ⟨r, hr⟩ := Option.isSome_iff_exists.mp hs
  have h := Render_heading_children_font_size exStore [] (some 0)
    (.mk NodeType.TextNode "a" (some 1) []) (.mk NodeType.TextNode "b" (some 2) []) 100 r
    (some 4) [some 3, some 5] rfl rfl hr (by decide)
  refine ⟨r, hr, h.1, h.2.1, ?_⟩
  rw [h.2.2.2.2]
  decide

/-- C13: `GetFontSize` panics exactly when the first font-size lookup on the way to the
root that is neither `NoStyles` nor `InheritValue` reports an error; in every other case
it returns a value; and once a lookup is resolved, no lookup on an ancestor above it,
failing or not, changes the result. -/
theorem GetFontSize_panics_iff (σ : Store) (s : StylePtr) (anc : List StylePtr) :
    (GetFontSize σ s anc = none ↔
      ∃ v, firstDecisive σ (s :: anc) = some (v, some CssError.Other)) ∧
    ((¬ ∃ v, firstDecisive σ (s :: anc) = some (v, some CssError.Other)) →
      ∃ size, GetFontSize σ s anc = some size) ∧
    (∀ v rest, firstDecisive σ (s :: anc) = some (v, none) →
      GetFontSize σ s (anc ++ rest) = some v) := by
  have key := GetFontSize_eq_firstDecisive σ anc s
  have hiff : GetFontSize σ s anc = none ↔
      ∃ v, firstDecisive σ (s :: anc) = some (v, some CssError.Other) := by
    rw [key]
    rcases hfd : firstDecisive σ (s :: anc) with _ | ⟨v, err⟩
    · simp
    · rcases err with _ | err
      · simp
      · have := firstDecisive_err σ v err _ hfd
        subst this
        simp
  refine ⟨hiff, ?_, ?_⟩
  · intro hno
    rcases hg : GetFontSize σ s anc with _ | size
    · exact absurd (hiff.mp hg) hno
    · exact ⟨size, rfl⟩
  · intro v rest hfd
    have h2 := firstDecisive_append σ rest (v, none) (s :: anc) hfd
    rw [GetFontSize_eq_firstDecisive σ (anc ++ rest) s]
    simp only [List.cons_append] at h2
    rw [h2]

/-- Witness of C13: below a parent of font size 12 whose own parent has a failing lookup
the font size is 12; below the failing lookup itself `GetFontSize` panics. -/
theorem GetFontSize_panics_iff_witness :
    GetFontSize exFailStore (some 2) [some 1, some 0] = some 12 ∧
    GetFontSize exFailStore (some 2) [some 0, some 1] = none :=
  ⟨(GetFontSize_panics_iff exFailStore (some 2) [some 1]).2.2 12 [some 0] (by decide),
   (GetFontSize_panics_iff exFailStore (some 2) [some 0, some 1]).1.mpr ⟨0, by decide⟩⟩

/-- C14, at a failing input: on the tree `div [p [span], text]` the callback of `Walk`
receives `div, p, p, span, span`: every element below the root is handed over twice, by
the loop of its parent and again by its own `Walk`.  The pre-order listing is
`div, p, span`. -/
theorem Walk_passes_children_twice :
    (Walk exWalkTree).map RenderableDomElement.Data = ["div", "p", "p", "span", "span"] ∧
    (preorderElements exWalkTree).map RenderableDomElement.Data = ["div", "p", "span"] := by
  decide

/-- C15, as the code has it: for a node without an explicit height whose children all
have a height and a font size, let `S` be the sum over the children of the larger of the
two; when `S > 0` and no running sum leaves the range of a Go `int` (from `-2^63` to
`2^63 - 1`), `GetHeightInPx` returns exactly `S` and no error, and what a child adds is
at least its resolved font size. -/
theorem GetHeightInPx_sum_children (σ : Store) (anc : List StylePtr) (ty : NodeType)
    (data : String) (st : StylePtr) (kids : List RenderableDomElement) (w : Int)
    (cs : List Int)
    (hexp : (σ st).FollowCascadeToPxHeight = -1)
    (hcs : kids.map (childContribution σ (st :: anc) w) = cs.map some)
    (hfit : ∀ s ∈ partialSums cs, -9223372036854775808 ≤ s ∧ s < 9223372036854775808)
    (hpos : 0 < cs.sum) :
    GetHeightInPx σ anc (.mk ty data st kids) w = some (cs.sum, none) ∧
    ∀ c ∈ kids, ∀ x f, childContribution σ (st :: anc) w c = some x →
      GetFontSize σ c.Styles (st :: anc) = some f → f ≤ x := by
  constructor
  · unfold GetHeightInPx
    simp only [hexp, ne_eq, not_true_eq_false, if_false,
      heightLoop_eq_sum σ (st :: anc) w kids cs 0 hcs
        (fun s hs => by simpa using hfit s hs), zero_add]
    rw [if_pos hpos]
  · intro c _ x f hx hf
    exact childContribution_ge σ _ w c x f hx hf

/-- Witness of C15: the two text children of `exHeadingTwo` add 16 each. -/
theorem GetHeightInPx_sum_children_witness :
    (exStore (some 0)).FollowCascadeToPxHeight = -1 ∧
    [.mk NodeType.TextNode "a" (some 1) [], .mk NodeType.TextNode "b" (some 2) []].map
      (childContribution exStore [some 0] 100) = [16, 16].map some ∧
    (∀ s ∈ partialSums [16, 16],
      -9223372036854775808 ≤ s ∧ s < 9223372036854775808) ∧
    (0 : Int) < [16, 16].sum ∧
    GetHeightInPx exStore [] exHeadingTwo 100 = some (32, none) :=
  ⟨by decide, by decide, by decide, by decide,
   (GetHeightInPx_sum_children exStore [] NodeType.ElementNode "h1" (some 0)
     [.mk NodeType.TextNode "a" (some 1) [], .mk NodeType.TextNode "b" (some 2) []] 100
     [16, 16] (by decide) (by decide) (by decide) (by decide)).1⟩

/-- Counterexample to C15 as stated: a `div` without an explicit height holds two
children of explicit height `2^62`.  Each child adds `2^62`, so `S = 2^63 > 0`; the sum
kept in a Go `int` wraps around to `-2^63`, and `GetHeightInPx` returns the font size 16
with the error `NoStyles`, not `S`. -/
theorem GetHeightInPx_sum_wraps :
    (exHugeStore (some 0)).FollowCascadeToPxHeight = -1 ∧
    exTwoDivs.Children.map (childContribution exHugeStore [some 0] 100)
      = [4611686018427387904, 4611686018427387904].map some ∧
    (0 : Int) < [4611686018427387904, 4611686018427387904].sum ∧
    GetHeightInPx exHugeStore [] exTwoDivs 100 = some (16, some CssError.NoStyles) := by
  decide

/-- C16: for a node that is neither of display type `block` nor a text node, whose
children all have a width, `GetWidthInPx(w)` returns the maximum of the widths of the
children when it is positive, and `w` otherwise, also when there is no child. -/
theorem GetWidthInPx_inline_element (σ : Store) (anc : List StylePtr) (ty : NodeType)
    (data : String) (st : StylePtr) (kids : List RenderableDomElement) (w : Int)
    (ws : List Int)
    (hnb : GetDisplayProp σ (.mk ty data st kids) ≠ "block")
    (hnt : ty ≠ NodeType.TextNode)
    (hws : kids.map (fun c => (GetWidthInPx σ (st :: anc) c w).map Prod.fst) = ws.map some) :
    GetWidthInPx σ anc (.mk ty data st kids) w =
      some ((match listMax ws with
             | some m => if 0 < m then m else w
             | none => w), none) := by
  unfold GetWidthInPx
  rw [if_neg hnb, if_neg hnt, widthLoop_eq_foldl σ (st :: anc) w kids ws 0 hws,
    foldl_max_listMax ws 0]
  rcases listMax ws with _ | m
  · simp
  · simp only [gt_iff_lt]
    by_cases hm : 0 < m
    · rw [if_pos (by rw [max_eq_right (le_of_lt hm)]; exact hm), if_pos hm,
        max_eq_right (le_of_lt hm)]
    · rw [if_neg (by rw [max_eq_left (by omega)]; omega), if_neg hm]

/-- Witness of C16: the children of `exSpanRow` are 100 px and 112 px wide, the row is
112 px wide; the `span` without children is as wide as the container. -/
theorem GetWidthInPx_inline_element_witness :
    GetDisplayProp exInlineStore exSpanRow ≠ "block" ∧
    NodeType.ElementNode ≠ NodeType.TextNode ∧
    GetWidthInPx exInlineStore [] exSpanRow 100 = some (112, none) ∧
    GetWidthInPx exInlineStore [some 0] exEmptySpan 100 = some (100, none) :=
  ⟨by decide, by decide,
   GetWidthInPx_inline_element exInlineStore [] NodeType.ElementNode "span" (some 0)
     [exEmptySpan, .mk NodeType.ElementNode "span" (some 3) [exText "hello, world."]] 100
     [100, 112] (by decide) (by decide) (by decide),
   GetWidthInPx_inline_element exInlineStore [some 0] NodeType.ElementNode "span" (some 2)
     [] 100 [] (by decide) (by decide) (by decide)⟩

/-- C17, at a failing input: the inline row `exSpanRow` is rendered in a container of
100 px and resolves to a width of 112 px.  Its first child, an empty inline `span`, is
measured against the container width, 100 px, and rendered against the width of the
row, into a buffer 112 px wide; the pen advances by 100, not by 112, and ends at
`x` = 100 + 112 after the second child. -/
theorem Render_inline_child_width_mismatch :
    (Render exInlineStore [] exSpanRow 100).map (fun r => (r.dst.Rect.Dx, r.dot))
      = some (112, ⟨212, 0⟩) ∧
    GetDisplayProp exInlineStore exEmptySpan = "inline" ∧
    GetWidthInPx exInlineStore [some 0] exEmptySpan 100 = some (100, none) ∧
    (Render exInlineStore [some 0] exEmptySpan 112).map (fun r => r.dst.Rect.Dx)
      = some 112 ∧
    (paintChildren exInlineStore [some 0] exFace 16 112 100 [exEmptySpan]
        ⟨⟨0, 0⟩, fixedP 0 14⟩).map (fun res => res.1.dot) = some ⟨100, 0⟩ := by
  decide

/-- C18, at two failing inputs.  A `div` holds a heading with the text `Title`: the
height of the heading is taken before its own `Render` sets its font size to 32, so the
pen advances by 16 while the buffer of the heading is 32 px high.  A `div` holds an
element with a nil `Styles`: its computed height is `-1`, the image allocated with this
height panics, and `Render` of the `div` does not return. -/
theorem Render_block_child_height_mismatch :
    GetDisplayProp exStore (exHeading "Title") = "block" ∧
    GetHeightInPx exStore [some 2] (exHeading "Title") 100 = some (16, none) ∧
    (Render exStore [some 2] (exHeading "Title") 100).map (fun r => r.dst.Rect.Dy)
      = some 32 ∧
    (Render exStore [] exDivHeading 100).map (fun r => r.dot) = some ⟨0, 16⟩ ∧
    GetHeightInPx exStore [some 2] exBare 100 = some (-1, some CssError.NoStyles) ∧
    (Render exStore [] exDivBare 100).isNone = true := by
  decide

/-- C19, at a failing input: a heading without a font size of its own (it resolves to
16) holds the word `hello` and is rendered 30 px wide, with faces that scale with the
font size.  The buffer is sized with the font size 32 (it is 32 px high), but the paint
uses the font size 16 read before the override: the word is 40 px wide, the line break
moves the pen down by 16 and the gap after the word is 5, so the pen ends at (45, 16);
painted with the font size 32 it would end at (90, 32). -/
theorem Render_heading_paints_with_old_font_size :
    GetFontSize exScaledStore (some 0) [] = some 16 ∧
    GetFontSize (headingOverride exScaledStore (exHeading "hello")) (some 0) [] = some 32 ∧
    (Render exScaledStore [] (exHeading "hello") 30).map (fun r => (r.dst.Rect, r.dot))
      = some (⟨⟨0, 0⟩, ⟨30, 32⟩⟩, ⟨45, 16⟩) ∧
    (paintText (exScaledFace 16) 16 30 "hello" ⟨⟨0, 0⟩, fixedP 0 12⟩).dot = ⟨45, 16⟩ ∧
    (paintText (exScaledFace 32) 32 30 "hello" ⟨⟨0, 0⟩, fixedP 0 24⟩).dot = ⟨90, 32⟩ := by
  decide

/-- C20: the height of a node does not depend on the container width: for any two widths
`GetHeightInPx` returns the same value and the same error, or panics for both. -/
theorem GetHeightInPx_container_width_irrelevant (σ : Store) (anc : List StylePtr)
    (e : RenderableDomElement) (w1 w2 : Int) :
    GetHeightInPx σ anc e w1 = GetHeightInPx σ anc e w2 :=
  GetHeightInPx_width_indep σ w1 w2 anc e

end Renderer
